import Mathlib

/-!
Shallow embedding of the cgroups v1 manager of the youki runtime
(src/cgroups/v1/manager.rs and src/cgroups/v1/util.rs), together with
theorems checking the natural-language specification against it.

Paths are modelled the way Rust's std::path sees them: an absoluteness
flag plus the list of normal components, so that Path::ends_with and
Path::join can be embedded faithfully (Path::ends_with matches whole
components from the back; Path::join appends a relative argument and
replaces self by an absolute one).

Host state that the source reads through procfs (the mount table and the
calling process's cgroup listing) is passed in explicitly as data, and the
filesystem side effects of remove are described by an environment record,
so every function here is executable.
-/

set_option autoImplicit false

namespace Youki

/-- Error outcomes of the resolution functions. `panicked` stands for an
abnormal abort: the source's `.unwrap()` on a missing value. `mountNotFound`
is the recoverable error produced by util.rs (`anyhow!("could not find
mountpoint for ...")`). `pathEscape` and `notAbsolute` come from the
sanitizing join. -/
inductive CgError where
  | mountNotFound
  | pathEscape
  | notAbsolute
  | panicked
  deriving DecidableEq

/-- A filesystem path as a list of normal components plus an absoluteness
flag, mirroring the component view of Rust's `std::path::PathBuf`. -/
structure PathBuf where
  absolute : Bool
  components : List String
  deriving DecidableEq

/-- The single-component relative path for a plain name, used for the
string literals passed to `ends_with` in the source. -/
def PathBuf.rel1 (s : String) : PathBuf :=
  ⟨false, [s]⟩

/-- The source's `to_string_lossy().is_empty()` test: the empty path. -/
def PathBuf.isEmptyPath (p : PathBuf) : Bool :=
  !p.absolute && p.components.isEmpty

/-- Rust `Path::ends_with`: whole-component suffix match. An absolute
argument only matches the entire path (its root component must line up). -/
def PathBuf.ends_with (self child : PathBuf) : Bool :=
  if child.absolute then
    self.absolute && (self.components == child.components)
  else
    child.components.isSuffixOf self.components

/-- Rust `Path::join`: appending an absolute path replaces self. -/
def PathBuf.join (self p : PathBuf) : PathBuf :=
  if p.absolute then p else ⟨self.absolute, self.components ++ p.components⟩

/-- Normalization of the requested components under a mount point: a `..`
cancels the previously kept component, and a `..` with nothing left to
cancel means the path would climb above the mount point (`none`). -/
def normalizeUnder : List String → List String → Option (List String)
  | acc, [] => some acc
  | acc, c :: rest =>
    if c = ".." then
      if acc.isEmpty then none else normalizeUnder acc.dropLast rest
    else
      normalizeUnder (acc ++ [c]) rest

/-- Modelled from the spec: `PathBufExt::join_absolute_path` lives in
crate::utils, which is not part of the given sources. Spec §4.3 case 2 and
§7: the requested path must be absolute and is re-rooted under the mount
point; parent-directory segments are neutralized within the join, and a
traversal that would resolve above the mount point is rejected with
`PathEscape` rather than silently clamped. -/
def PathBuf.join_absolute_path (self p : PathBuf) : Except CgError PathBuf :=
  if !p.absolute then
    .error .notAbsolute
  else
    match normalizeUnder [] p.components with
    | none => .error .pathEscape
    | some cs => .ok ⟨self.absolute, self.components ++ cs⟩

/-- One record of the host mount table, as read through procfs: the
filesystem kind and the mount point (procfs::process::MountInfo, restricted
to the two fields the source consults). -/
structure MountInfo where
  fs_type : String
  mount_point : PathBuf
  deriving DecidableEq

/-- The find-closure shared verbatim by `util::get_subsystem_mount_points`
and `Manager::get_subsystem_path`: inside the cgroup filesystem kind,
net_cls / net_prio / cpu get their co-mount aliases; everything else — and
every record of a different filesystem kind — falls through to the plain
`ends_with(subsystem)` check. -/
def subsystemMountMatches (subsystem : String) (m : MountInfo) : Bool :=
  if m.fs_type = "cgroup" ∧ subsystem = "net_cls" then
    m.mount_point.ends_with (PathBuf.rel1 "net_cls,net_prio") ||
      m.mount_point.ends_with (PathBuf.rel1 "net_prio,net_cls") ||
      m.mount_point.ends_with (PathBuf.rel1 "net_cls")
  else if m.fs_type = "cgroup" ∧ subsystem = "net_prio" then
    m.mount_point.ends_with (PathBuf.rel1 "net_cls,net_prio") ||
      m.mount_point.ends_with (PathBuf.rel1 "net_prio,net_cls") ||
      m.mount_point.ends_with (PathBuf.rel1 "net_prio")
  else if m.fs_type = "cgroup" ∧ subsystem = "cpu" then
    m.mount_point.ends_with (PathBuf.rel1 "cpu,cpuacct") ||
      m.mount_point.ends_with (PathBuf.rel1 "cpu")
  else
    m.mount_point.ends_with (PathBuf.rel1 subsystem)

/-- Embedding of `util::get_subsystem_mount_points`: first matching mount
record, or the recoverable `anyhow!` error when none matches. -/
def get_subsystem_mount_points (subsystem : String) (mountinfo : List MountInfo) :
    Except CgError PathBuf :=
  match mountinfo.find? (subsystemMountMatches subsystem) with
  | some m => .ok m.mount_point
  | none => .error .mountNotFound

/-- One record of the calling process's cgroup listing
(procfs::process::ProcessCgroup): the controller set and the relative
pathname of the cgroup the process belongs to. -/
structure ProcCgroup where
  controllers : List String
  pathname : PathBuf
  deriving DecidableEq

/-- The host state `Process::myself()` exposes to this code: the mount
table and the calling process's cgroup listing. -/
structure ProcEnv where
  mountinfo : List MountInfo
  cgroups : List ProcCgroup
  deriving DecidableEq

/-- Embedding of `Manager::get_subsystem_path`: find the subsystem's mount record and
the process's own membership record — both with a bare `.unwrap()`, which
panics (`.error .panicked`) when missing — then resolve the requested path
in three cases: empty (inherit the process's own placement), absolute
(sanitizing join under the mount point), relative (plain join). -/
def Manager.get_subsystem_path (env : ProcEnv) (cgroup_path : PathBuf)
    (subsystem : String) : Except CgError PathBuf :=
  match env.mountinfo.find? (subsystemMountMatches subsystem) with
  | none => .error .panicked
  | some mount =>
    match env.cgroups.find? (fun c => c.controllers.contains subsystem) with
    | none => .error .panicked
    | some cgroup =>
      if cgroup_path.isEmptyPath then
        mount.mount_point.join_absolute_path cgroup.pathname
      else if cgroup_path.absolute then
        mount.mount_point.join_absolute_path cgroup_path
      else
        .ok (mount.mount_point.join cgroup_path)

/-- Modelled from the spec: the `ControllerType` enumeration is defined in
super::controller_type, which is not part of the given sources; spec §3
fixes it as a closed set of nine variants. The declaration order below is
the order of the `CONTROLLERS` constant in manager.rs. -/
inductive ControllerType where
  | Cpu
  | CpuSet
  | Devices
  | HugeTlb
  | Memory
  | Pids
  | Blkio
  | NetworkPriority
  | NetworkClassifier
  deriving DecidableEq

/-- Modelled from the spec: the canonical host-visible string of each
controller (spec §3). -/
def ControllerType.toString : ControllerType → String
  | .Cpu => "cpu"
  | .CpuSet => "cpuset"
  | .Devices => "devices"
  | .HugeTlb => "hugetlb"
  | .Memory => "memory"
  | .Pids => "pids"
  | .Blkio => "blkio"
  | .NetworkPriority => "net_prio"
  | .NetworkClassifier => "net_cls"

/-- The `CONTROLLERS` constant of manager.rs, in declaration order. -/
def CONTROLLERS : List ControllerType :=
  [.Cpu, .CpuSet, .Devices, .HugeTlb, .Memory, .Pids, .Blkio,
   .NetworkPriority, .NetworkClassifier]

/-- Embedding of `HashMap::insert` on the association-list model of the subsystem map:
overwrite an existing key, otherwise add the entry. -/
def hmInsert (m : List (String × PathBuf)) (k : String) (v : PathBuf) :
    List (String × PathBuf) :=
  if m.any (fun kv => kv.1 == k) then
    m.map (fun kv => if kv.1 == k then (k, v) else kv)
  else
    m ++ [(k, v)]

/-- The v1 cgroup manager: its subsystem-name-to-path map. The source
stores a `HashMap<String, PathBuf>`; it is modelled as an association list
in insertion order (the source's iteration order is unspecified, and no
theorem below relies on the model's order except where the source fixes
it). -/
structure Manager where
  subsystems : List (String × PathBuf)
  deriving DecidableEq

/-- One loop iteration of `Manager::new`: resolve the controller's path
(the `?` propagates its error) and insert it into the map. -/
def Manager.newStep (env : ProcEnv) (cgroup_path : PathBuf)
    (subs : List (String × PathBuf)) (c : ControllerType) :
    Except CgError (List (String × PathBuf)) := do
  let p ← Manager.get_subsystem_path env cgroup_path c.toString
  pure (hmInsert subs c.toString p)

/-- Embedding of `Manager::new`: build the subsystem map over all of
`CONTROLLERS`; the first resolution error aborts construction. -/
def Manager.new (env : ProcEnv) (cgroup_path : PathBuf) : Except CgError Manager := do
  let subsystems ← CONTROLLERS.foldlM (Manager.newStep env cgroup_path) []
  pure ⟨subsystems⟩

/-- Errors of `Manager::apply`: a controller's failure propagated by `?`,
or the `unreachable!` fallback arm of the string dispatch. -/
inductive ApplyError where
  | controllerFailed (msg : String)
  | unreachableReached
  deriving DecidableEq

/-- The nine external controller modules, abstracted at their uniform
`apply(resources, path, pid)` capability (spec §4.4 treats them as opaque
collaborators; resources and pid are fixed ambient arguments of one
`Manager::apply` call, so each capability is a function of the path). -/
structure Controllers where
  cpu : PathBuf → Except String Unit
  cpuset : PathBuf → Except String Unit
  devices : PathBuf → Except String Unit
  hugetlb : PathBuf → Except String Unit
  memory : PathBuf → Except String Unit
  pids : PathBuf → Except String Unit
  blkio : PathBuf → Except String Unit
  net_prio : PathBuf → Except String Unit
  net_cls : PathBuf → Except String Unit

/-- The string-keyed dispatch of `Manager::apply`: match the map key
against the nine canonical names, `unreachable!` otherwise. -/
def Manager.dispatch (ctrls : Controllers) (key : String) (path : PathBuf) :
    Except ApplyError Unit :=
  match key with
  | "cpu" => (ctrls.cpu path).mapError ApplyError.controllerFailed
  | "cpuset" => (ctrls.cpuset path).mapError ApplyError.controllerFailed
  | "devices" => (ctrls.devices path).mapError ApplyError.controllerFailed
  | "hugetlb" => (ctrls.hugetlb path).mapError ApplyError.controllerFailed
  | "memory" => (ctrls.memory path).mapError ApplyError.controllerFailed
  | "pids" => (ctrls.pids path).mapError ApplyError.controllerFailed
  | "blkio" => (ctrls.blkio path).mapError ApplyError.controllerFailed
  | "net_prio" => (ctrls.net_prio path).mapError ApplyError.controllerFailed
  | "net_cls" => (ctrls.net_cls path).mapError ApplyError.controllerFailed
  | _ => .error .unreachableReached

/-- The loop of `Manager::apply` over the entries of the subsystem map:
fail-fast on the first controller error. -/
def Manager.applyAux (ctrls : Controllers) :
    List (String × PathBuf) → Except ApplyError Unit
  | [] => .ok ()
  | kv :: rest =>
    match Manager.dispatch ctrls kv.1 kv.2 with
    | .error e => .error e
    | .ok _ => Manager.applyAux ctrls rest

/-- Embedding of `Manager::apply`. The source iterates the `HashMap` directly, in an
order the standard library leaves unspecified; the model iterates the
association list. -/
def Manager.apply (ctrls : Controllers) (m : Manager) : Except ApplyError Unit :=
  Manager.applyAux ctrls m.subsystems

/-- Errors of `Manager::remove`: a failed read of the process-membership
file, a pid line that does not parse as an i32, or exhaustion of the delete
retry budget. -/
inductive RemoveError where
  | readFailed (msg : String)
  | pidParseFailed (line : String)
  | removalTimeout
  deriving DecidableEq

/-- Modelled from the spec: `CGROUP_PROCS` is defined in
crate::cgroups::common, which is not part of the given sources; spec §6:
the fixed-name process-membership file of a cgroup directory. -/
def CGROUP_PROCS : String := "cgroup.procs"

/-- Rust `str::parse::<i32>`: an optional single sign, then at least one
digit and nothing else, with the value in the i32 range. -/
def parse_i32 (s : String) : Option Int :=
  let cs := s.toList
  let signDigits : Int × List Char :=
    match cs with
    | '-' :: rest => (-1, rest)
    | '+' :: rest => (1, rest)
    | _ => (1, cs)
  if signDigits.2.isEmpty ∨ ¬ signDigits.2.all Char.isDigit then
    none
  else
    let n : Nat := signDigits.2.foldl (fun a c => a * 10 + (c.toNat - 48)) 0
    let v : Int := signDigits.1 * (n : Int)
    if -2147483648 ≤ v ∧ v ≤ 2147483647 then some v else none

/-- The parsing loop of `Manager::remove` over the lines of the membership
file: the first line that fails to parse is a propagated error. -/
def parsePids : List String → Except RemoveError (List Int)
  | [] => .ok []
  | l :: ls =>
    match parse_i32 l with
    | none => .error (.pidParseFailed l)
    | some pid => (parsePids ls).map (fun ps => pid :: ps)

/-- The filesystem and signal effects `Manager::remove` performs, as data:
whether a path exists, the lines of a path's membership file (or a read
error), the outcome of sending SIGKILL to a pid, and how many initial
delete attempts on a path fail because the kernel still holds it busy. -/
structure RemoveEnv where
  pathExists : PathBuf → Bool
  readProcs : PathBuf → Except String (List String)
  kill : Int → Bool
  busyAttempts : PathBuf → Nat

/-- Modelled from the spec: the delete retry budget of
`utils::delete_with_retry` (not part of the given sources); spec §4.5 and
§5 fix it only as a bounded number of attempts. -/
def retry_budget : Nat := 5

/-- Modelled from the spec: `utils::delete_with_retry` (crate::utils, not
part of the given sources). Spec §4.5 step 3: attempt removal, retrying
while the kernel reports the directory busy, up to a fixed attempt budget;
an exhausted budget is a `RemovalTimeout` error. The environment's
`busyAttempts` gives the number of initially failing attempts. -/
def delete_with_retry (env : RemoveEnv) (p : PathBuf) : Except RemoveError Unit :=
  if env.busyAttempts p < retry_budget then .ok () else .error .removalTimeout

/-- The loop of `Manager::remove` over the entries of the subsystem map.
A non-existent directory is skipped; otherwise the membership file is read
(`?` propagates a failure), each line is parsed as an i32 pid (`?`
propagates a failure), each pid is sent SIGKILL with the result discarded
(`let _ = kill(...)`), and the directory is deleted with retry (`?`
propagates exhaustion). The successfully deleted paths are returned so
that theorems can speak about which directories were removed. -/
def Manager.removeAux (env : RemoveEnv) :
    List (String × PathBuf) → Except RemoveError (List PathBuf)
  | [] => .ok []
  | kv :: rest =>
    if env.pathExists kv.2 then
      match env.readProcs (kv.2.join (PathBuf.rel1 CGROUP_PROCS)) with
      | .error e => .error (.readFailed e)
      | .ok lines =>
        match parsePids lines with
        | .error e => .error e
        | .ok pids =>
          let _ := pids.map env.kill
          match delete_with_retry env kv.2 with
          | .error e => .error e
          | .ok _ => (Manager.removeAux env rest).map (fun l => kv.2 :: l)
    else
      Manager.removeAux env rest

/-- Embedding of `Manager::remove`. -/
def Manager.remove (env : RemoveEnv) (m : Manager) : Except RemoveError (List PathBuf) :=
  Manager.removeAux env m.subsystems

/-- One loop iteration of `util::list_subsystem_mount_points`: a failed
per-controller resolution is swallowed by `if let Ok`, leaving the map
unchanged. -/
def listStep (mountinfo : List MountInfo) (acc : List (String × PathBuf))
    (c : ControllerType) : List (String × PathBuf) :=
  match get_subsystem_mount_points c.toString mountinfo with
  | .ok mp => hmInsert acc c.toString mp
  | .error _ => acc

/-- Embedding of `util::list_subsystem_mount_points`: always `Ok`, with one
entry per controller whose resolution succeeded. -/
def list_subsystem_mount_points (mountinfo : List MountInfo) :
    Except CgError (List (String × PathBuf)) :=
  .ok (CONTROLLERS.foldl (listStep mountinfo) [])

/-! ## Helper lemmas -/

instance {ε α : Type} [DecidableEq ε] [DecidableEq α] : DecidableEq (Except ε α) :=
  fun x y =>
    match x, y with
    | .error e, .error f =>
      if h : e = f then isTrue (by rw [h])
      else isFalse (fun hc => h (Except.error.inj hc))
    | .ok a, .ok b =>
      if h : a = b then isTrue (by rw [h])
      else isFalse (fun hc => h (Except.ok.inj hc))
    | .error _, .ok _ => isFalse (fun hc => Except.noConfusion hc)
    | .ok _, .error _ => isFalse (fun hc => Except.noConfusion hc)

lemma normalizeUnder_no_dotdot :
    ∀ (rest acc out : List String), ".." ∉ acc →
      normalizeUnder acc rest = some out → ".." ∉ out := by
  intro rest
  induction rest with
  | nil =>
    intro acc out hacc h
    simp only [normalizeUnder, Option.some.injEq] at h
    exact h ▸ hacc
  | cons c rest ih =>
    intro acc out hacc h
    by_cases hc : c = ".."
    · subst hc
      rw [normalizeUnder, if_pos rfl] at h
      by_cases he : acc.isEmpty
      · rw [if_pos he] at h
        exact Option.noConfusion h
      · rw [if_neg he] at h
        exact ih acc.dropLast out
          (fun hm => hacc ((List.dropLast_sublist acc).subset hm)) h
    · rw [normalizeUnder, if_neg hc] at h
      refine ih (acc ++ [c]) out ?_ h
      intro hm
      rcases List.mem_append.mp hm with hm | hm
      · exact hacc hm
      · exact hc (List.mem_singleton.mp hm).symm

lemma isPrefixOf_append_self (l t : List String) : l.isPrefixOf (l ++ t) = true := by
  induction l with
  | nil => simp [List.isPrefixOf]
  | cons a l ih => simp [List.isPrefixOf, ih]

lemma get_subsystem_mount_points_single (s : String) (e : MountInfo) :
    get_subsystem_mount_points s [e] =
      if subsystemMountMatches s e then .ok e.mount_point
      else .error .mountNotFound := by
  cases h : subsystemMountMatches s e <;>
    simp [get_subsystem_mount_points, List.find?, h]

lemma any_key_iff (m : List (String × PathBuf)) (k : String) :
    m.any (fun kv => kv.1 == k) = true ↔ k ∈ m.map Prod.fst := by
  simp [List.any_eq_true, List.mem_map]

lemma hmInsert_map_fst (m : List (String × PathBuf)) (k : String) (v : PathBuf) :
    (hmInsert m k v).map Prod.fst =
      if k ∈ m.map Prod.fst then m.map Prod.fst else m.map Prod.fst ++ [k] := by
  unfold hmInsert
  by_cases h : m.any (fun kv => kv.1 == k) = true
  · rw [if_pos h, if_pos ((any_key_iff m k).mp h), List.map_map]
    refine List.map_congr_left ?_
    intro kv _
    by_cases hk : kv.1 == k
    · simp only [Function.comp_apply, if_pos hk]
      exact (beq_iff_eq.mp hk).symm
    · simp only [Function.comp_apply, if_neg hk]
  · rw [if_neg h, if_neg (fun hc => h ((any_key_iff m k).mpr hc))]
    simp

lemma mem_hmInsert_self (m : List (String × PathBuf)) (k : String) (v : PathBuf) :
    (k, v) ∈ hmInsert m k v := by
  unfold hmInsert
  by_cases h : m.any (fun kv => kv.1 == k) = true
  · rw [if_pos h]
    obtain ⟨kv, hkv, hb⟩ := List.any_eq_true.mp h
    exact List.mem_map.mpr ⟨kv, hkv, by rw [if_pos hb]⟩
  · rw [if_neg h]
    exact List.mem_append.mpr (Or.inr (List.mem_singleton.mpr rfl))

lemma mem_hmInsert_of_ne (m : List (String × PathBuf)) (k k' : String)
    (p v' : PathBuf) (hne : k ≠ k') (h : (k, p) ∈ m) : (k, p) ∈ hmInsert m k' v' := by
  unfold hmInsert
  by_cases ha : m.any (fun kv => kv.1 == k') = true
  · rw [if_pos ha]
    refine List.mem_map.mpr ⟨(k, p), h, ?_⟩
    rw [if_neg (by simp [hne])]
  · rw [if_neg ha]
    exact List.mem_append.mpr (Or.inl h)

lemma not_mem_keys_hmInsert (m : List (String × PathBuf)) (k k' : String)
    (v' : PathBuf) (hne : k ≠ k') (h : k ∉ m.map Prod.fst) :
    k ∉ (hmInsert m k' v').map Prod.fst := by
  rw [hmInsert_map_fst]
  by_cases hk : k' ∈ m.map Prod.fst <;> simp [hk, h, hne]

lemma newAux_ok_keys (env : ProcEnv) (cgroup_path : PathBuf) :
    ∀ (cs : List ControllerType) (acc out : List (String × PathBuf)),
      List.foldlM (Manager.newStep env cgroup_path) acc cs = .ok out →
      out.map Prod.fst =
        cs.foldl (fun ks c => if c.toString ∈ ks then ks else ks ++ [c.toString])
          (acc.map Prod.fst) := by
  intro cs
  induction cs with
  | nil =>
    intro acc out h
    simp only [List.foldlM, pure, Except.pure, Except.ok.injEq] at h
    simp [← h]
  | cons c cs ih =>
    intro acc out h
    cases hg : Manager.get_subsystem_path env cgroup_path c.toString with
    | error e =>
      simp [List.foldlM, Manager.newStep, hg, Bind.bind, Except.bind] at h
    | ok p =>
      simp only [List.foldlM, Manager.newStep, hg, Bind.bind, Except.bind,
        pure, Except.pure] at h
      rw [List.foldl_cons, ← hmInsert_map_fst acc c.toString p]
      exact ih (hmInsert acc c.toString p) out h

lemma newAux_error_of_mem (env : ProcEnv) (cgroup_path : PathBuf) :
    ∀ (cs : List ControllerType) (acc : List (String × PathBuf))
      (c : ControllerType), c ∈ cs →
      (∃ e, Manager.get_subsystem_path env cgroup_path c.toString = .error e) →
      ∃ e, List.foldlM (Manager.newStep env cgroup_path) acc cs = .error e := by
  intro cs
  induction cs with
  | nil =>
    intro acc c hc _
    exact absurd hc (List.not_mem_nil c)
  | cons d cs ih =>
    intro acc c hc hex
    cases hg : Manager.get_subsystem_path env cgroup_path d.toString with
    | error e =>
      exact ⟨e, by simp [List.foldlM, Manager.newStep, hg, Bind.bind, Except.bind]⟩
    | ok p =>
      rcases List.mem_cons.mp hc with rfl | h
      · obtain ⟨e, he⟩ := hex
        rw [hg] at he
        exact Except.noConfusion he
      · obtain ⟨e, h2⟩ := ih (hmInsert acc d.toString p) c h hex
        refine ⟨e, ?_⟩
        simp [List.foldlM, Manager.newStep, hg, Bind.bind, Except.bind,
          pure, Except.pure, h2]

/-! ## Claim theorems -/

/-- C1: for every mount point and every requested absolute path (including
ones with parent-directory segments), the sanitizing join either fails with
`PathEscape` or returns the mount point extended by a suffix free of any
remaining parent-directory segment — it never yields a path outside the
mount point. -/
theorem join_absolute_path_never_escapes (mount p : PathBuf)
    (habs : p.absolute = true) :
    mount.join_absolute_path p = .error .pathEscape ∨
    ∃ suffix : List String,
      mount.join_absolute_path p =
        .ok ⟨mount.absolute, mount.components ++ suffix⟩ ∧
      ".." ∉ suffix := by
  unfold PathBuf.join_absolute_path
  rw [habs]
  cases h : normalizeUnder [] p.components with
  | none => left; simp [h]
  | some cs =>
    right
    refine ⟨cs, by simp [h], ?_⟩
    exact normalizeUnder_no_dotdot p.components [] cs (by simp) h

/-- Witness for C1 at the spec's own example: joining mount point
/sys/fs/cgroup/memory with requested path /user.slice/../../etc. -/
theorem join_absolute_path_never_escapes_witness :
    (⟨true, ["user.slice", "..", "..", "etc"]⟩ : PathBuf).absolute = true ∧
    (PathBuf.join_absolute_path ⟨true, ["sys", "fs", "cgroup", "memory"]⟩
        ⟨true, ["user.slice", "..", "..", "etc"]⟩ = .error .pathEscape ∨
     ∃ suffix : List String,
       PathBuf.join_absolute_path ⟨true, ["sys", "fs", "cgroup", "memory"]⟩
           ⟨true, ["user.slice", "..", "..", "etc"]⟩ =
         .ok ⟨true, ["sys", "fs", "cgroup", "memory"] ++ suffix⟩ ∧
       ".." ∉ suffix) :=
  ⟨rfl, join_absolute_path_never_escapes ⟨true, ["sys", "fs", "cgroup", "memory"]⟩
    ⟨true, ["user.slice", "..", "..", "etc"]⟩ rfl⟩

/-- C2: path resolution evaluates exactly three cases in priority order:
empty requested path inherits the process's own placement via the
sanitizing join; an absolute requested path is sanitized under the mount
point (and any successful result extends the mount point); a non-empty
relative requested path is joined directly onto the mount point, ignoring
the process's own placement (its result does not mention the membership
record). -/
theorem get_subsystem_path_three_cases (env : ProcEnv) (cgroup_path : PathBuf)
    (subsystem : String) (mount : MountInfo) (cgroup : ProcCgroup)
    (hm : env.mountinfo.find? (subsystemMountMatches subsystem) = some mount)
    (hc : env.cgroups.find? (fun c => c.controllers.contains subsystem) = some cgroup) :
    (cgroup_path.isEmptyPath = true →
      Manager.get_subsystem_path env cgroup_path subsystem =
        mount.mount_point.join_absolute_path cgroup.pathname) ∧
    (cgroup_path.isEmptyPath = false → cgroup_path.absolute = true →
      Manager.get_subsystem_path env cgroup_path subsystem =
        mount.mount_point.join_absolute_path cgroup_path ∧
      ∀ q, Manager.get_subsystem_path env cgroup_path subsystem = .ok q →
        mount.mount_point.components.isPrefixOf q.components = true) ∧
    (cgroup_path.isEmptyPath = false → cgroup_path.absolute = false →
      Manager.get_subsystem_path env cgroup_path subsystem =
        .ok ⟨mount.mount_point.absolute,
             mount.mount_point.components ++ cgroup_path.components⟩) := by
  refine ⟨?_, ?_, ?_⟩
  · intro h
    unfold Manager.get_subsystem_path
    rw [hm, hc]
    simp [h]
  · intro h1 h2
    have heq : Manager.get_subsystem_path env cgroup_path subsystem =
        mount.mount_point.join_absolute_path cgroup_path := by
      unfold Manager.get_subsystem_path
      rw [hm, hc]
      simp [h1, h2]
    refine ⟨heq, ?_⟩
    intro q hq
    rw [heq] at hq
    unfold PathBuf.join_absolute_path at hq
    rw [h2] at hq
    simp only [Bool.not_true, Bool.false_eq_true, if_false] at hq
    cases hn : normalizeUnder [] cgroup_path.components with
    | none => rw [hn] at hq; exact Except.noConfusion hq
    | some cs =>
      rw [hn] at hq
      have hquv : (⟨mount.mount_point.absolute,
          mount.mount_point.components ++ cs⟩ : PathBuf) = q :=
        Except.ok.inj hq
      rw [← hquv]
      exact isPrefixOf_append_self mount.mount_point.components cs
  · intro h1 h2
    unfold Manager.get_subsystem_path
    rw [hm, hc]
    simp [h1, h2, PathBuf.join]

/-- Witness for C2 on a one-entry mount table and a one-entry cgroup
listing, with a relative requested path. -/
theorem get_subsystem_path_three_cases_witness :
    ((⟨[⟨"cgroup", ⟨true, ["sys", "fs", "cgroup", "memory"]⟩⟩],
       [⟨["memory"], ⟨true, ["user.slice"]⟩⟩]⟩ : ProcEnv).mountinfo.find?
        (subsystemMountMatches "memory") =
      some ⟨"cgroup", ⟨true, ["sys", "fs", "cgroup", "memory"]⟩⟩) ∧
    ((⟨false, ["ct"]⟩ : PathBuf).isEmptyPath = false →
      (⟨false, ["ct"]⟩ : PathBuf).absolute = false →
      Manager.get_subsystem_path
          ⟨[⟨"cgroup", ⟨true, ["sys", "fs", "cgroup", "memory"]⟩⟩],
           [⟨["memory"], ⟨true, ["user.slice"]⟩⟩]⟩ ⟨false, ["ct"]⟩ "memory" =
        .ok ⟨true, ["sys", "fs", "cgroup", "memory"] ++ ["ct"]⟩) :=
  ⟨by decide,
   (get_subsystem_path_three_cases
      ⟨[⟨"cgroup", ⟨true, ["sys", "fs", "cgroup", "memory"]⟩⟩],
       [⟨["memory"], ⟨true, ["user.slice"]⟩⟩]⟩ ⟨false, ["ct"]⟩ "memory"
      ⟨"cgroup", ⟨true, ["sys", "fs", "cgroup", "memory"]⟩⟩
      ⟨["memory"], ⟨true, ["user.slice"]⟩⟩ (by decide) (by decide)).2.2⟩

/-- C3: on a mount table with one cgroup entry, a mount point ending in
"net_cls,net_prio" or "net_prio,net_cls" resolves both NetworkClassifier
and NetworkPriority to that same mount point; for Cpu a mount point ending
in "cpu,cpuacct" or plain "cpu" matches; every other controller matches
exactly when the mount point ends with its canonical name. -/
theorem mount_point_aliasing (mp : PathBuf) :
    (mp.ends_with (PathBuf.rel1 "net_cls,net_prio") = true →
      get_subsystem_mount_points ControllerType.NetworkClassifier.toString
          [⟨"cgroup", mp⟩] = .ok mp ∧
      get_subsystem_mount_points ControllerType.NetworkPriority.toString
          [⟨"cgroup", mp⟩] = .ok mp) ∧
    (mp.ends_with (PathBuf.rel1 "net_prio,net_cls") = true →
      get_subsystem_mount_points ControllerType.NetworkClassifier.toString
          [⟨"cgroup", mp⟩] = .ok mp ∧
      get_subsystem_mount_points ControllerType.NetworkPriority.toString
          [⟨"cgroup", mp⟩] = .ok mp) ∧
    (mp.ends_with (PathBuf.rel1 "cpu,cpuacct") = true →
      get_subsystem_mount_points ControllerType.Cpu.toString
          [⟨"cgroup", mp⟩] = .ok mp) ∧
    (mp.ends_with (PathBuf.rel1 "cpu") = true →
      get_subsystem_mount_points ControllerType.Cpu.toString
          [⟨"cgroup", mp⟩] = .ok mp) ∧
    (∀ c : ControllerType, c ≠ .Cpu → c ≠ .NetworkPriority →
      c ≠ .NetworkClassifier →
      (get_subsystem_mount_points c.toString [⟨"cgroup", mp⟩] = .ok mp ↔
        mp.ends_with (PathBuf.rel1 c.toString) = true)) := by
  refine ⟨?_, ?_, ?_, ?_, ?_⟩
  · intro h
    constructor <;>
      simp [get_subsystem_mount_points_single, subsystemMountMatches,
        ControllerType.toString, h]
  · intro h
    constructor <;>
      simp [get_subsystem_mount_points_single, subsystemMountMatches,
        ControllerType.toString, h]
  · intro h
    simp [get_subsystem_mount_points_single, subsystemMountMatches,
      ControllerType.toString, h]
  · intro h
    simp [get_subsystem_mount_points_single, subsystemMountMatches,
      ControllerType.toString, h]
  · intro c h1 h2 h3
    rw [get_subsystem_mount_points_single]
    have hmatch : subsystemMountMatches c.toString ⟨"cgroup", mp⟩ =
        mp.ends_with (PathBuf.rel1 c.toString) := by
      cases c <;>
        first
        | exact absurd rfl h1
        | exact absurd rfl h2
        | exact absurd rfl h3
        | simp [subsystemMountMatches, ControllerType.toString]
    rw [hmatch]
    cases he : mp.ends_with (PathBuf.rel1 c.toString) <;> simp [he]

/-- Witness for C3: a co-mounted net_cls,net_prio mount point resolves
both network controllers. -/
theorem mount_point_aliasing_witness :
    get_subsystem_mount_points ControllerType.NetworkClassifier.toString
        [⟨"cgroup", ⟨true, ["sys", "fs", "cgroup", "net_cls,net_prio"]⟩⟩] =
      .ok ⟨true, ["sys", "fs", "cgroup", "net_cls,net_prio"]⟩ ∧
    get_subsystem_mount_points ControllerType.NetworkPriority.toString
        [⟨"cgroup", ⟨true, ["sys", "fs", "cgroup", "net_cls,net_prio"]⟩⟩] =
      .ok ⟨true, ["sys", "fs", "cgroup", "net_cls,net_prio"]⟩ :=
  (mount_point_aliasing ⟨true, ["sys", "fs", "cgroup", "net_cls,net_prio"]⟩).1
    (by decide)

/-- C5 counterexample: on an empty mount table, `Manager::get_subsystem_path`
aborts abnormally (the `.unwrap()` on the missing mount record, modelled as
`panicked`) instead of failing with the recoverable typed `MountNotFound`
error the claim asserts. -/
theorem resolution_unwrap_cex :
    Manager.get_subsystem_path ⟨[], [⟨["memory"], ⟨true, []⟩⟩]⟩ ⟨false, []⟩
        "memory" = .error .panicked ∧
    Manager.get_subsystem_path ⟨[], [⟨["memory"], ⟨true, []⟩⟩]⟩ ⟨false, []⟩
        "memory" ≠ .error .mountNotFound := by
  exact ⟨rfl, by decide⟩

/-- C5 amended: `util::get_subsystem_mount_points` fails with the
recoverable `MountNotFound` error when no mount record matches, but
`Manager::get_subsystem_path` panics (a bare `.unwrap()`) both when no
mount record matches and when the process's cgroup listing has no entry
for the controller — it never returns those typed errors. -/
theorem resolution_errors_amended (env : ProcEnv) (mountinfo : List MountInfo)
    (cgroup_path : PathBuf) (subsystem : String) :
    (mountinfo.find? (subsystemMountMatches subsystem) = none →
      get_subsystem_mount_points subsystem mountinfo = .error .mountNotFound) ∧
    (env.mountinfo.find? (subsystemMountMatches subsystem) = none →
      Manager.get_subsystem_path env cgroup_path subsystem = .error .panicked) ∧
    (∀ mount, env.mountinfo.find? (subsystemMountMatches subsystem) = some mount →
      env.cgroups.find? (fun c => c.controllers.contains subsystem) = none →
      Manager.get_subsystem_path env cgroup_path subsystem = .error .panicked) := by
  refine ⟨?_, ?_, ?_⟩
  · intro h
    unfold get_subsystem_mount_points
    rw [h]
  · intro h
    unfold Manager.get_subsystem_path
    rw [h]
  · intro mount hm hc
    unfold Manager.get_subsystem_path
    rw [hm, hc]

/-- Witness for C5's amended statement on an empty host state. -/
theorem resolution_errors_amended_witness :
    (([] : List MountInfo).find? (subsystemMountMatches "memory") = none →
      get_subsystem_mount_points "memory" [] = .error .mountNotFound) ∧
    ((⟨[], []⟩ : ProcEnv).mountinfo.find? (subsystemMountMatches "memory") = none →
      Manager.get_subsystem_path ⟨[], []⟩ ⟨false, []⟩ "memory" = .error .panicked) ∧
    (∀ mount, (⟨[], []⟩ : ProcEnv).mountinfo.find?
        (subsystemMountMatches "memory") = some mount →
      (⟨[], []⟩ : ProcEnv).cgroups.find?
        (fun c => c.controllers.contains "memory") = none →
      Manager.get_subsystem_path ⟨[], []⟩ ⟨false, []⟩ "memory" = .error .panicked) :=
  resolution_errors_amended ⟨[], []⟩ [] ⟨false, []⟩ "memory"

/-- C7 counterexample: a mount record of filesystem kind tmpfs whose mount
point ends in "memory" is returned as the Memory controller's mount point,
so mount resolution does not consider only records of the cgroup kind. -/
theorem mount_resolution_fs_kind_cex :
    get_subsystem_mount_points "memory" [⟨"tmpfs", ⟨true, ["foo", "memory"]⟩⟩] =
      .ok ⟨true, ["foo", "memory"]⟩ ∧
    ("tmpfs" : String) ≠ "cgroup" :=
  ⟨rfl, by decide⟩

/-- C7 amended: only the aliased special cases (net_cls, net_prio, cpu) are
gated on the cgroup filesystem kind; a record of any other filesystem kind
is still matched by the generic suffix check on the controller's canonical
name, so a non-cgroup mount can be returned as a controller's mount
point. -/
theorem mount_resolution_fs_kind_amended (subsystem : String) (m : MountInfo)
    (h : m.fs_type ≠ "cgroup") :
    subsystemMountMatches subsystem m =
      m.mount_point.ends_with (PathBuf.rel1 subsystem) := by
  unfold subsystemMountMatches
  rw [if_neg (fun hc => h hc.1), if_neg (fun hc => h hc.1),
    if_neg (fun hc => h hc.1)]

/-- Witness for C7's amended statement on the tmpfs record of the
counterexample. -/
theorem mount_resolution_fs_kind_amended_witness :
    (MountInfo.mk "tmpfs" ⟨true, ["foo", "memory"]⟩).fs_type ≠ "cgroup" ∧
    subsystemMountMatches "memory" ⟨"tmpfs", ⟨true, ["foo", "memory"]⟩⟩ =
      (⟨true, ["foo", "memory"]⟩ : PathBuf).ends_with (PathBuf.rel1 "memory") :=
  ⟨by decide, mount_resolution_fs_kind_amended "memory"
    ⟨"tmpfs", ⟨true, ["foo", "memory"]⟩⟩ (by decide)⟩

/-! ## Concrete host fixtures used by witnesses -/

/-- A well-formed host: all nine controllers mounted at nine distinct
cgroup mount points. -/
def mountsNine : List MountInfo :=
  [⟨"cgroup", ⟨true, ["sys", "fs", "cgroup", "cpu"]⟩⟩,
   ⟨"cgroup", ⟨true, ["sys", "fs", "cgroup", "cpuset"]⟩⟩,
   ⟨"cgroup", ⟨true, ["sys", "fs", "cgroup", "devices"]⟩⟩,
   ⟨"cgroup", ⟨true, ["sys", "fs", "cgroup", "hugetlb"]⟩⟩,
   ⟨"cgroup", ⟨true, ["sys", "fs", "cgroup", "memory"]⟩⟩,
   ⟨"cgroup", ⟨true, ["sys", "fs", "cgroup", "pids"]⟩⟩,
   ⟨"cgroup", ⟨true, ["sys", "fs", "cgroup", "blkio"]⟩⟩,
   ⟨"cgroup", ⟨true, ["sys", "fs", "cgroup", "net_prio"]⟩⟩,
   ⟨"cgroup", ⟨true, ["sys", "fs", "cgroup", "net_cls"]⟩⟩]

/-- The well-formed host together with a calling process placed at "/" for
every controller. -/
def envNine : ProcEnv :=
  ⟨mountsNine,
   [⟨["cpu", "cpuset", "devices", "hugetlb", "memory", "pids", "blkio",
      "net_prio", "net_cls"], ⟨true, []⟩⟩]⟩

/-- The manager `Manager::new` builds on `envNine` for the relative
requested path "ct". -/
def managerNine : Manager :=
  ⟨[("cpu", ⟨true, ["sys", "fs", "cgroup", "cpu", "ct"]⟩),
    ("cpuset", ⟨true, ["sys", "fs", "cgroup", "cpuset", "ct"]⟩),
    ("devices", ⟨true, ["sys", "fs", "cgroup", "devices", "ct"]⟩),
    ("hugetlb", ⟨true, ["sys", "fs", "cgroup", "hugetlb", "ct"]⟩),
    ("memory", ⟨true, ["sys", "fs", "cgroup", "memory", "ct"]⟩),
    ("pids", ⟨true, ["sys", "fs", "cgroup", "pids", "ct"]⟩),
    ("blkio", ⟨true, ["sys", "fs", "cgroup", "blkio", "ct"]⟩),
    ("net_prio", ⟨true, ["sys", "fs", "cgroup", "net_prio", "ct"]⟩),
    ("net_cls", ⟨true, ["sys", "fs", "cgroup", "net_cls", "ct"]⟩)]⟩

/-- Nine controller capabilities that always succeed. -/
def ctrlsOk : Controllers :=
  ⟨fun _ => .ok (), fun _ => .ok (), fun _ => .ok (), fun _ => .ok (),
   fun _ => .ok (), fun _ => .ok (), fun _ => .ok (), fun _ => .ok (),
   fun _ => .ok ()⟩

/-- C4: whenever `Manager::new` succeeds, the subsystem map holds exactly
one entry for each of the nine controller names and no others (its key
list is exactly the nine canonical strings); and if resolution fails for
any controller, construction fails as a whole. -/
theorem manager_new_nine_controllers (env : ProcEnv) (cgroup_path : PathBuf) :
    (∀ m, Manager.new env cgroup_path = .ok m →
      m.subsystems.map Prod.fst =
        ["cpu", "cpuset", "devices", "hugetlb", "memory", "pids", "blkio",
         "net_prio", "net_cls"]) ∧
    (∀ c ∈ CONTROLLERS,
      (∃ e, Manager.get_subsystem_path env cgroup_path c.toString = .error e) →
      ∃ e, Manager.new env cgroup_path = .error e) := by
  constructor
  · intro m hm
    unfold Manager.new at hm
    cases hf : List.foldlM (Manager.newStep env cgroup_path) [] CONTROLLERS with
    | error e =>
      rw [hf] at hm
      simp [Bind.bind, Except.bind] at hm
    | ok subs =>
      rw [hf] at hm
      simp only [Bind.bind, Except.bind, pure, Except.pure, Except.ok.injEq] at hm
      have hkeys := newAux_ok_keys env cgroup_path CONTROLLERS [] subs hf
      rw [← hm]
      rw [hkeys]
      decide
  · intro c hc hex
    obtain ⟨e, hfold⟩ := newAux_error_of_mem env cgroup_path CONTROLLERS [] c hc hex
    exact ⟨e, by simp [Manager.new, hfold, Bind.bind, Except.bind]⟩

/-- Witness for C4 on the well-formed nine-mount host. -/
theorem manager_new_nine_controllers_witness :
    Manager.new envNine ⟨false, ["ct"]⟩ = .ok managerNine ∧
    managerNine.subsystems.map Prod.fst =
      ["cpu", "cpuset", "devices", "hugetlb", "memory", "pids", "blkio",
       "net_prio", "net_cls"] :=
  ⟨by decide,
   (manager_new_nine_controllers envNine ⟨false, ["ct"]⟩).1 managerNine (by decide)⟩

lemma mapError_controllerFailed_ne_unreachable (r : Except String Unit) :
    r.mapError ApplyError.controllerFailed ≠ .error .unreachableReached := by
  cases r <;> simp [Except.mapError]

lemma dispatch_known_key_no_unreachable (ctrls : Controllers) (key : String)
    (path : PathBuf)
    (h : key ∈ (["cpu", "cpuset", "devices", "hugetlb", "memory", "pids",
      "blkio", "net_prio", "net_cls"] : List String)) :
    Manager.dispatch ctrls key path ≠ .error .unreachableReached := by
  simp only [List.mem_cons, List.not_mem_nil, or_false] at h
  rcases h with rfl | rfl | rfl | rfl | rfl | rfl | rfl | rfl | rfl <;>
    exact mapError_controllerFailed_ne_unreachable _

lemma applyAux_no_unreachable (ctrls : Controllers) :
    ∀ l : List (String × PathBuf),
      (∀ kv ∈ l, kv.1 ∈ (["cpu", "cpuset", "devices", "hugetlb", "memory",
        "pids", "blkio", "net_prio", "net_cls"] : List String)) →
      Manager.applyAux ctrls l ≠ .error .unreachableReached := by
  intro l
  induction l with
  | nil =>
    intro _
    simp [Manager.applyAux]
  | cons kv rest ih =>
    intro hall
    simp only [Manager.applyAux]
    cases hd : Manager.dispatch ctrls kv.1 kv.2 with
    | error e =>
      have hne := dispatch_known_key_no_unreachable ctrls kv.1 kv.2
        (hall kv (List.mem_cons_self kv rest))
      rw [hd] at hne
      simpa using hne
    | ok _ =>
      exact ih (fun kv' h' => hall kv' (List.mem_cons_of_mem kv h'))

/-- C9: every key of a successfully constructed manager's subsystem map is
one of the nine canonical controller strings matched by apply's dispatch,
so apply can never reach the `unreachable!` fallback arm. -/
theorem apply_dispatch_never_unreachable (env : ProcEnv) (cgroup_path : PathBuf)
    (m : Manager) (hm : Manager.new env cgroup_path = .ok m)
    (ctrls : Controllers) :
    (∀ kv ∈ m.subsystems, kv.1 ∈
      (["cpu", "cpuset", "devices", "hugetlb", "memory", "pids", "blkio",
        "net_prio", "net_cls"] : List String)) ∧
    Manager.apply ctrls m ≠ .error .unreachableReached := by
  have hkeys : m.subsystems.map Prod.fst =
      ["cpu", "cpuset", "devices", "hugetlb", "memory", "pids", "blkio",
       "net_prio", "net_cls"] := by
    unfold Manager.new at hm
    cases hf : List.foldlM (Manager.newStep env cgroup_path) [] CONTROLLERS with
    | error e =>
      rw [hf] at hm
      simp [Bind.bind, Except.bind] at hm
    | ok subs =>
      rw [hf] at hm
      simp only [Bind.bind, Except.bind, pure, Except.pure, Except.ok.injEq] at hm
      rw [← hm, newAux_ok_keys env cgroup_path CONTROLLERS [] subs hf]
      decide
  have hmem : ∀ kv ∈ m.subsystems, kv.1 ∈
      (["cpu", "cpuset", "devices", "hugetlb", "memory", "pids", "blkio",
        "net_prio", "net_cls"] : List String) := by
    intro kv hkv
    rw [← hkeys]
    exact List.mem_map_of_mem Prod.fst hkv
  exact ⟨hmem, applyAux_no_unreachable ctrls m.subsystems hmem⟩

/-- Witness for C9: the manager built on the nine-mount host, applied with
always-succeeding controllers. -/
theorem apply_dispatch_never_unreachable_witness :
    (∀ kv ∈ managerNine.subsystems, kv.1 ∈
      (["cpu", "cpuset", "devices", "hugetlb", "memory", "pids", "blkio",
        "net_prio", "net_cls"] : List String)) ∧
    Manager.apply ctrlsOk managerNine ≠ .error .unreachableReached :=
  apply_dispatch_never_unreachable envNine ⟨false, ["ct"]⟩ managerNine
    (by decide) ctrlsOk

lemma listFold_not_mem (mountinfo : List MountInfo) :
    ∀ (cs : List ControllerType) (acc : List (String × PathBuf)) (k : String),
      k ∉ acc.map Prod.fst →
      (∃ e, get_subsystem_mount_points k mountinfo = .error e) →
      k ∉ (cs.foldl (listStep mountinfo) acc).map Prod.fst := by
  intro cs
  induction cs with
  | nil =>
    intro acc k hk _
    simpa using hk
  | cons d cs ih =>
    intro acc k hk hex
    rw [List.foldl_cons]
    refine ih (listStep mountinfo acc d) k ?_ hex
    unfold listStep
    cases hg : get_subsystem_mount_points d.toString mountinfo with
    | error e => exact hk
    | ok mp =>
      by_cases hkd : k = d.toString
      · obtain ⟨e, he⟩ := hex
        rw [hkd] at he
        exact Except.noConfusion (he.symm.trans hg)
      · exact not_mem_keys_hmInsert acc k d.toString mp hkd hk

lemma listFold_mem (mountinfo : List MountInfo) :
    ∀ (cs : List ControllerType) (acc : List (String × PathBuf))
      (k : String) (p : PathBuf),
      get_subsystem_mount_points k mountinfo = .ok p →
      ((k, p) ∈ acc ∨ ∃ c ∈ cs, c.toString = k) →
      (k, p) ∈ cs.foldl (listStep mountinfo) acc := by
  intro cs
  induction cs with
  | nil =>
    intro acc k p _ h
    rcases h with h | ⟨c, hc, _⟩
    · simpa using h
    · exact absurd hc (List.not_mem_nil c)
  | cons d cs ih =>
    intro acc k p hg h
    rw [List.foldl_cons]
    refine ih (listStep mountinfo acc d) k p hg ?_
    rcases h with hin | ⟨c, hc, hck⟩
    · left
      unfold listStep
      cases hgd : get_subsystem_mount_points d.toString mountinfo with
      | error e => exact hin
      | ok q =>
        by_cases hkd : k = d.toString
        · rw [← hkd] at hgd
          have hpq : p = q := Except.ok.inj (hg.symm.trans hgd)
          rw [← hkd, ← hpq]
          exact mem_hmInsert_self acc k p
        · exact mem_hmInsert_of_ne acc k d.toString p q hkd hin
    · rcases List.mem_cons.mp hc with rfl | hcs
      · left
        unfold listStep
        rw [hck, hg]
        exact mem_hmInsert_self acc k p
      · right
        exact ⟨c, hcs, hck⟩

/-- C10: `list_subsystem_mount_points` never returns an error: a
per-controller resolution failure only omits that controller from the
returned map (its name is no key of the result), a successful resolution
contributes its entry, and the result can have fewer than nine entries
(on an empty mount table it is empty). -/
theorem list_subsystem_mount_points_swallows (mountinfo : List MountInfo) :
    (∃ mp, list_subsystem_mount_points mountinfo = .ok mp) ∧
    (∀ mp, list_subsystem_mount_points mountinfo = .ok mp →
      ∀ c ∈ CONTROLLERS,
        ((∃ e, get_subsystem_mount_points c.toString mountinfo = .error e) →
          c.toString ∉ mp.map Prod.fst) ∧
        (∀ p, get_subsystem_mount_points c.toString mountinfo = .ok p →
          (c.toString, p) ∈ mp)) ∧
    list_subsystem_mount_points [] = .ok [] := by
  refine ⟨⟨_, rfl⟩, ?_, rfl⟩
  intro mp hmp c hc
  have hmp' : CONTROLLERS.foldl (listStep mountinfo) [] = mp :=
    Except.ok.inj hmp
  constructor
  · intro hex
    rw [← hmp']
    exact listFold_not_mem mountinfo CONTROLLERS [] c.toString (by simp) hex
  · intro p hp
    rw [← hmp']
    exact listFold_mem mountinfo CONTROLLERS [] c.toString p hp
      (Or.inr ⟨c, hc, rfl⟩)

/-- Witness for C10 on a host where only the memory controller is mounted:
the map has the single memory entry, the other eight are omitted without
an error. -/
theorem list_subsystem_mount_points_swallows_witness :
    (ControllerType.Memory.toString,
      (⟨true, ["sys", "fs", "cgroup", "memory"]⟩ : PathBuf)) ∈
      ([(ControllerType.Memory.toString,
        (⟨true, ["sys", "fs", "cgroup", "memory"]⟩ : PathBuf))] :
        List (String × PathBuf)) :=
  ((list_subsystem_mount_points_swallows
      [⟨"cgroup", ⟨true, ["sys", "fs", "cgroup", "memory"]⟩⟩]).2.1
    [(ControllerType.Memory.toString, ⟨true, ["sys", "fs", "cgroup", "memory"]⟩)]
    (by decide) ControllerType.Memory (by decide)).2
    ⟨true, ["sys", "fs", "cgroup", "memory"]⟩ (by decide)

lemma removeAux_kill_irrelevant (env₁ env₂ : RemoveEnv)
    (hex : env₁.pathExists = env₂.pathExists)
    (hrd : env₁.readProcs = env₂.readProcs)
    (hb : env₁.busyAttempts = env₂.busyAttempts) :
    ∀ subs, Manager.removeAux env₁ subs = Manager.removeAux env₂ subs := by
  intro subs
  induction subs with
  | nil => rfl
  | cons kv rest ih =>
    simp only [Manager.removeAux, delete_with_retry, hex, hrd, hb, ih]

/-- C6: during remove, the outcome of the SIGKILL sent to each parsed pid
is discarded — the result of remove is the same for any signal outcomes,
and a fully-successful entry's directory is deleted whatever the signal
results were — while a membership-file read failure, a pid parse failure,
or an exhausted delete retry budget is a propagated error whose result
does not depend on (and hence never processes) the remaining entries. -/
theorem remove_signals_best_effort_errors_fail_fast :
    (∀ (ex : PathBuf → Bool) (rd : PathBuf → Except String (List String))
       (f g : Int → Bool) (b : PathBuf → Nat)
       (subs : List (String × PathBuf)),
       Manager.removeAux ⟨ex, rd, f, b⟩ subs =
         Manager.removeAux ⟨ex, rd, g, b⟩ subs) ∧
    (∀ (env : RemoveEnv) (kv : String × PathBuf)
       (rest : List (String × PathBuf)) (lines : List String) (pids : List Int),
       env.pathExists kv.2 = true →
       env.readProcs (kv.2.join (PathBuf.rel1 CGROUP_PROCS)) = .ok lines →
       parsePids lines = .ok pids →
       env.busyAttempts kv.2 < retry_budget →
       Manager.removeAux env (kv :: rest) =
         (Manager.removeAux env rest).map (fun l => kv.2 :: l)) ∧
    (∀ (env : RemoveEnv) (kv : String × PathBuf)
       (rest : List (String × PathBuf)) (msg : String),
       env.pathExists kv.2 = true →
       env.readProcs (kv.2.join (PathBuf.rel1 CGROUP_PROCS)) = .error msg →
       Manager.removeAux env (kv :: rest) = .error (.readFailed msg)) ∧
    (∀ (env : RemoveEnv) (kv : String × PathBuf)
       (rest : List (String × PathBuf)) (lines : List String) (e : RemoveError),
       env.pathExists kv.2 = true →
       env.readProcs (kv.2.join (PathBuf.rel1 CGROUP_PROCS)) = .ok lines →
       parsePids lines = .error e →
       Manager.removeAux env (kv :: rest) = .error e) ∧
    (∀ (env : RemoveEnv) (kv : String × PathBuf)
       (rest : List (String × PathBuf)) (lines : List String) (pids : List Int),
       env.pathExists kv.2 = true →
       env.readProcs (kv.2.join (PathBuf.rel1 CGROUP_PROCS)) = .ok lines →
       parsePids lines = .ok pids →
       ¬ env.busyAttempts kv.2 < retry_budget →
       Manager.removeAux env (kv :: rest) = .error .removalTimeout) := by
  refine ⟨?_, ?_, ?_, ?_, ?_⟩
  · intro ex rd f g b subs
    exact removeAux_kill_irrelevant ⟨ex, rd, f, b⟩ ⟨ex, rd, g, b⟩ rfl rfl rfl subs
  · intro env kv rest lines pids hex hrd hpids hbusy
    simp [Manager.removeAux, hex, hrd, hpids, delete_with_retry, hbusy]
  · intro env kv rest msg hex hrd
    simp [Manager.removeAux, hex, hrd]
  · intro env kv rest lines e hex hrd hpids
    simp [Manager.removeAux, hex, hrd, hpids]
  · intro env kv rest lines pids hex hrd hpids hbusy
    simp [Manager.removeAux, hex, hrd, hpids, delete_with_retry, hbusy]

/-- Witness for C6: an entry whose membership file lists pids 123 and 456,
with every signal failing (`fun _ => false`), is still deleted, and the
result does not change when the signal outcomes change. -/
theorem remove_signals_best_effort_errors_fail_fast_witness :
    Manager.removeAux
        ⟨fun _ => true, fun _ => .ok ["123", "456"], fun _ => false, fun _ => 0⟩
        [("memory", ⟨true, ["sys", "fs", "cgroup", "memory", "ct"]⟩)] =
      Manager.removeAux
        ⟨fun _ => true, fun _ => .ok ["123", "456"], fun _ => true, fun _ => 0⟩
        [("memory", ⟨true, ["sys", "fs", "cgroup", "memory", "ct"]⟩)] ∧
    Manager.removeAux
        ⟨fun _ => true, fun _ => .ok ["123", "456"], fun _ => false, fun _ => 0⟩
        [("memory", ⟨true, ["sys", "fs", "cgroup", "memory", "ct"]⟩)] =
      (Manager.removeAux
          ⟨fun _ => true, fun _ => .ok ["123", "456"], fun _ => false, fun _ => 0⟩
          []).map
        (fun l => (⟨true, ["sys", "fs", "cgroup", "memory", "ct"]⟩ : PathBuf) :: l) :=
  ⟨remove_signals_best_effort_errors_fail_fast.1
      (fun _ => true) (fun _ => .ok ["123", "456"]) (fun _ => false)
      (fun _ => true) (fun _ => 0)
      [("memory", ⟨true, ["sys", "fs", "cgroup", "memory", "ct"]⟩)],
   remove_signals_best_effort_errors_fail_fast.2.1
      ⟨fun _ => true, fun _ => .ok ["123", "456"], fun _ => false, fun _ => 0⟩
      ("memory", ⟨true, ["sys", "fs", "cgroup", "memory", "ct"]⟩) []
      ["123", "456"] [123, 456] rfl rfl (by decide) (by decide)⟩

end Youki
